import Mathlib

/-!
Verification development for the trie-based route matcher in
`src/common/utils/match-route/build-trie.ts`.

The TypeScript source is shallowly embedded below:
* JavaScript `String.prototype.split` on a one-character separator is `jsSplit`;
* `path-to-regexp` tokens (`string | Key`) are the inductive `Token`;
* the `PrefixTree` class becomes a mutual inductive whose `prefixes` object is
  an association list (JS object property access never enumerates keys here,
  so only lookup/update order matters);
* `expandToken`, `buildTrie` and `matchRoute` are translated line by line;
* the two external collaborators (`path-to-regexp`'s `parse` and
  `execRouteMatching`) are parameters of the embedded functions; executable
  models of them, written from the spec, instantiate the concrete examples.
-/

set_option maxHeartbeats 1000000

/-- JS `String.prototype.split` helper: `acc` holds the characters of the
current piece in reverse; a separator character closes the current piece. -/
def splitCharsAux (sep : Char) : List Char → List Char → List String
  | acc, [] => [String.mk acc.reverse]
  | acc, c :: cs =>
    if c = sep then String.mk acc.reverse :: splitCharsAux sep [] cs
    else splitCharsAux sep (c :: acc) cs

/-- JS `s.split(sep)` for a single-character separator: `"".split("/") = [""]`,
`"/a/b".split("/") = ["", "a", "b"]`. -/
def jsSplit (s : String) (sep : Char) : List String :=
  splitCharsAux sep [] s.data

/-- A `path-to-regexp` token (`Token = string | Key`): either a literal chunk of
the template or a parameter key, of which `expandToken` only inspects the
`pattern` field. -/
inductive Token where
  | str (s : String)
  | param (name : String) (pattern : String)
deriving DecidableEq, Repr

/-- The `typeof token === 'string'` test used by `buildTrie`'s `takeWhile`. -/
def Token.isStr : Token → Bool
  | .str _ => true
  | .param _ _ => false

/-- The `@ts-ignore` cast of a (string) token to `string` in `buildTrie`; only
ever applied after `Token.isStr` has been checked. -/
def Token.strVal : Token → String
  | .str s => s
  | .param n _ => n

/-- `expandToken` from build-trie.ts: a literal is split on `/` and the first
piece is dropped (`.slice(1)`); a parameter whose pattern is the default
single-segment pattern becomes the wildcard string `'*'`; every other token is
passed through unchanged. -/
def expandToken : Token → List Token
  | Token.str s => ((jsSplit s '/').drop 1).map Token.str
  | Token.param n pat =>
    if pat = "[^\\/]+?" then [Token.str "*"] else [Token.param n pat]

mutual

/-- The `PrefixTree<T>` class: its `prefixes` object maps one path segment to a
node. Embedded as an association list keyed by the segment string. -/
inductive PrefixTree (T : Type) : Type where
  | mk : List (String × PrefixTreeNode T) → PrefixTree T

/-- `PrefixTreeNode<T>`: `value: T[] | null` and `tail: PrefixTree<T> | null`. -/
inductive PrefixTreeNode (T : Type) : Type where
  | mk : Option (List T) → Option (PrefixTree T) → PrefixTreeNode T

end

/-- The `prefixes` field of a `PrefixTree`. -/
def PrefixTree.prefixes {T : Type} : PrefixTree T → List (String × PrefixTreeNode T)
  | .mk ps => ps

/-- The `value` field of a `PrefixTreeNode`. -/
def PrefixTreeNode.value {T : Type} : PrefixTreeNode T → Option (List T)
  | .mk v _ => v

/-- The `tail` field of a `PrefixTreeNode`. -/
def PrefixTreeNode.tail {T : Type} : PrefixTreeNode T → Option (PrefixTree T)
  | .mk _ t => t

/-- JS object property read `obj[k]`: first (only) binding of the key. -/
def lookupKey {α : Type} : List (String × α) → String → Option α
  | [], _ => none
  | (k, v) :: rest, s => if k = s then some v else lookupKey rest s

/-- JS object property write `obj[k] = v`: replaces the binding in place when
the key is present, otherwise appends a new binding. -/
def setKey {α : Type} : List (String × α) → String → α → List (String × α)
  | [], s, v => [(s, v)]
  | (k, w) :: rest, s, v =>
    if k = s then (s, v) :: rest else (k, w) :: setKey rest s v

/-- The terminal step of `PrefixTree.add` (the `else` branch): create the node
when absent, then set its value to `[v]` or push `v` onto the existing list,
keeping the tail. -/
def pushValue {T : Type} (t : PrefixTree T) (k : String) (v : T) : PrefixTree T :=
  let node := (lookupKey t.prefixes k).getD (PrefixTreeNode.mk none none)
  let newVal := match node.value with
    | some vs => vs ++ [v]
    | none => [v]
  PrefixTree.mk (setKey t.prefixes k (PrefixTreeNode.mk (some newVal) node.tail))

/-- `PrefixTree.add(path, value)` from build-trie.ts. With an empty `path`,
JS reads `path[0]` as `undefined` and the property access coerces it to the
string key `"undefined"`; the length check then falls into the terminal
branch, so the value lands under the literal key `"undefined"`. -/
def PrefixTree.add {T : Type} : PrefixTree T → List String → T → PrefixTree T
  | t, [], v => pushValue t "undefined" v
  | t, [k], v => pushValue t k v
  | t, k :: k2 :: rest, v =>
    let node := (lookupKey t.prefixes k).getD (PrefixTreeNode.mk none none)
    let tail := node.tail.getD (PrefixTree.mk [])
    let tail' := tail.add (k2 :: rest) v
    PrefixTree.mk (setKey t.prefixes k (PrefixTreeNode.mk node.value (some tail')))

/-- A registered route: per the spec's data model, the path template string and
the `exact` flag; everything else is opaque metadata the core never reads. -/
structure Route where
  path : String
  exact : Bool
deriving DecidableEq, Repr

/-- Per-call query parameters (opaque pass-through to the external matcher). -/
abbrev Query := List (String × String)

/-- The insertion key computed inside `buildTrie`'s `forEach` body: parse the
template (external), flatMap `expandToken` over the tokens, then take the
leading run of string tokens. -/
def routeKey (parsePath : String → List Token) (r : Route) : List String :=
  let tokens := parsePath r.path
  let expandedTokens := tokens.flatMap expandToken
  (expandedTokens.takeWhile Token.isStr).map Token.strVal

/-- The trie accumulated by `buildTrie`'s `forEach` loop. -/
def theTrie (parsePath : String → List Token) (routes : List Route) : PrefixTree Route :=
  routes.foldl (fun t route => t.add (routeKey parsePath route) route) (PrefixTree.mk [])

/-- `buildTrie` from build-trie.ts: declared `PrefixTree<InvariantRoute> | null`
but the body unconditionally returns the accumulated trie. -/
def buildTrie (parsePath : String → List Token) (routes : List Route) :
    Option (PrefixTree Route) :=
  some (theTrie parsePath routes)

/-- `pathname.split('/').filter(s => s)` from `matchRoute`: empty pieces are
falsy and dropped. -/
def pathSegments (pathname : String) : List String :=
  (jsSplit pathname '/').filter (fun s => decide (s ≠ ""))

/-- The `while` loop of `matchRoute`: starting from the (possibly null) current
trie, for each remaining path segment look up the literal edge and fall back to
the `'*'` edge, append the node's value list (if any) to the collected
patterns, and continue in the node's tail (or stop when it is null). -/
def collectPatterns {T : Type} : Option (PrefixTree T) → List String → List T
  | _, [] => []
  | none, _ :: _ => []
  | some tr, s :: rest =>
    let node := match lookupKey tr.prefixes s with
      | some n => some n
      | none => lookupKey tr.prefixes "*"
    let vals := match node with
      | some n => n.value.getD []
      | none => []
    let nextTrie := match node with
      | some n => n.tail
      | none => none
    vals ++ collectPatterns nextTrie rest

/-- The final `for` loop of `matchRoute`: try each pattern in the order given,
return the first successful result, else null. -/
def execLoop {T M : Type} (f : T → Option M) : List T → Option M
  | [] => none
  | p :: rest =>
    match f p with
    | some m => some m
    | none => execLoop f rest

/-- `matchRoute` from build-trie.ts, parameterised by the external per-route
matcher `exec` (`execRouteMatching`). The trie argument is `Option` because the
implementation guards every dereference with `while (currentTrie && ...)` and
`node?.` accesses, so a null trie flows through without faulting. The final
loop runs from the last collected pattern down to the first, i.e. over the
reversed pattern list. -/
def matchRoute {T Q M : Type} (exec : T → String → Q → String → Option M)
    (trie : Option (PrefixTree T)) (pathname : String) (queryParams : Q)
    (basePath : String) : Option M :=
  let splitPath := pathSegments pathname
  let patterns := collectPatterns trie splitPath
  execLoop (fun pattern => exec pattern pathname queryParams basePath) patterns.reverse

/-- Reads the parameter name and optional custom pattern out of a template
segment that begins with `':'` (the characters after the colon are given). -/
def paramOfSeg (seg : List Char) : Token :=
  let name := seg.takeWhile (fun c => decide (c ≠ '('))
  let rest := seg.dropWhile (fun c => decide (c ≠ '('))
  match rest with
  | '(' :: more => Token.param (String.mk name) (String.mk (more.takeWhile (fun c => decide (c ≠ ')'))))
  | _ => Token.param (String.mk name) "[^\\/]+?"

/-- Modelled from the spec: the external path-template parser (`path-to-regexp`'s
`parse`, out of scope per §1/§6) on templates made of `/`-separated literal
segments and `:name` parameters, optionally with a custom pattern in
parentheses. Consecutive literal segments form one literal token carrying its
leading separator; a `:name` segment becomes a parameter token whose pattern is
the custom pattern when given, else the default single-segment pattern. -/
def parsePathModel (template : String) : List Token :=
  let segs := (jsSplit template '/').filter (fun s => decide (s ≠ ""))
  let step := fun (acc : List Token × String) (seg : String) =>
    match seg.data with
    | ':' :: rest =>
      let toks := if acc.2 = "" then acc.1 else acc.1 ++ [Token.str acc.2]
      (toks ++ [paramOfSeg rest], "")
    | _ => (acc.1, acc.2 ++ "/" ++ seg)
  let r := segs.foldl step ([], "")
  if r.2 = "" then r.1 else r.1 ++ [Token.str r.2]

/-- One segment pattern of a route template as the external matcher sees it:
an exact literal segment or a named single-segment parameter. -/
inductive SegPat where
  | lit (s : String)
  | pvar (name : String)
deriving DecidableEq, Repr

/-- The segment patterns of a route template, re-derived from the original
template string (per §9 the matcher never trusts the trie's wildcard marker). -/
def templateSegs (parsePath : String → List Token) (template : String) : List SegPat :=
  (parsePath template).flatMap fun t =>
    match t with
    | .str s => ((jsSplit s '/').filter (fun x => decide (x ≠ ""))).map SegPat.lit
    | .param n _ => [SegPat.pvar n]

/-- Matches segment patterns against the leading request-path segments,
binding each parameter to its segment; leftover path segments are allowed
(the `exact` check is done by the caller). -/
def matchSegsFrom : List SegPat → List String → Option (List (String × String))
  | [], _ => some []
  | _ :: _, [] => none
  | .lit s :: ps, seg :: segs =>
    if s = seg then matchSegsFrom ps segs else none
  | .pvar n :: ps, seg :: segs =>
    (matchSegsFrom ps segs).map (fun bs => (n, seg) :: bs)

/-- The extraction result of the external matcher: bound path parameters. -/
structure RouteMatch where
  params : List (String × String)
deriving DecidableEq, Repr

/-- The `Result` type of `matchRoute`: the winning route and its match data. -/
structure MatchResult where
  route : Route
  result : RouteMatch
deriving DecidableEq, Repr

/-- Modelled from the spec: the external full-route matcher
(`execRouteMatching`, out of scope per §1/§6). It independently re-parses the
route's template, verifies the request path segment-by-segment (literals
exactly, parameters by any one non-empty segment), enforces the `exact` flag by
requiring the whole path to be consumed, and extracts the bound parameters.
Query parameters and the base path are opaque pass-through data. -/
def execRouteMatchingModel (route : Route) (pathname : String) (_queryParams : Query)
    (_basePath : String) : Option MatchResult :=
  let segs := pathSegments pathname
  let pats := templateSegs parsePathModel route.path
  if route.exact && decide (segs.length ≠ pats.length) then none
  else (matchSegsFrom pats segs).map (fun bs => MatchResult.mk route (RouteMatch.mk bs))

/-- The route list stored at a node path of the trie (empty when the path or
its node is absent, and at the root path itself, which stores no values). -/
def valuesAt {T : Type} : PrefixTree T → List String → List T
  | _, [] => []
  | t, [k] =>
    match lookupKey t.prefixes k with
    | some n => n.value.getD []
    | none => []
  | t, k :: k2 :: rest =>
    match lookupKey t.prefixes k with
    | some n =>
      match n.tail with
      | some t' => valuesAt t' (k2 :: rest)
      | none => []
    | none => []

/-- The effective insertion key of a route: `buildTrie` computes `routeKey`,
and `PrefixTree.add` stores an empty key under the JS-coerced property name
`"undefined"`, so the effective key is never empty. -/
def effKey (parsePath : String → List Token) (r : Route) : List String :=
  match routeKey parsePath r with
  | [] => ["undefined"]
  | k => k

/-- Whether some insertion key starts with the given segment. -/
def insHead {T : Type} (ins : List (List String × T)) (s : String) : Bool :=
  ins.any (fun kv => decide (kv.1.head? = some s))

/-- The values inserted exactly at the one-segment key `[s]`, in order. -/
def valsOf {T : Type} (ins : List (List String × T)) (s : String) : List T :=
  (ins.filter (fun kv => decide (kv.1 = [s]))).map Prod.snd

/-- The insertions that descend strictly below the edge `s`, with that leading
segment consumed, in order. -/
def subOf {T : Type} (ins : List (List String × T)) (s : String) :
    List (List String × T) :=
  ((ins.filter (fun kv => decide (kv.1.head? = some s) && decide (2 ≤ kv.1.length))).map
    (fun kv => (kv.1.tail, kv.2)))

/-- Spec-side candidate collection, defined directly on the registered routes'
literal/wildcard key structure (no trie): at each request segment, the literal
edge is taken when some key starts with that segment, else the wildcard edge
`'*'` when some key starts with it, else collection stops; the routes whose key
terminates at the edge taken are collected in registration order. -/
def specCollect {T : Type} : List (List String × T) → List String → List T
  | _, [] => []
  | ins, s :: rest =>
    if insHead ins s then
      valsOf ins s ++ specCollect (subOf ins s) rest
    else if insHead ins "*" then
      valsOf ins "*" ++ specCollect (subOf ins "*") rest
    else []

/-- Spec-side brute-force matcher for claim C1 (§8 "Equivalence to brute
force"): evaluate every registered route against the request path with the
external matcher, restricted to the routes reachable via the route set's
literal/wildcard segment structure (`specCollect`), in precedence order —
routes with deeper literal/wildcard keys first and, among routes whose keys
tie at the same depth, the later-registered route before the earlier one
(i.e. the reverse of the depth-then-registration collection order). -/
def listMatchSpec {Q M : Type} (exec : Route → String → Q → String → Option M)
    (parsePath : String → List Token) (routes : List Route) (pathname : String)
    (queryParams : Q) (basePath : String) : Option M :=
  let reachable := specCollect (routes.map (fun r => (effKey parsePath r, r))) (pathSegments pathname)
  execLoop (fun r => exec r pathname queryParams basePath) reachable.reverse

/-- The Token Expander as claim C7 words it (§4.1): a literal is split on the
separator into one literal token per segment, discarding (only) the leading
empty piece produced by a leading separator; a default-pattern parameter is
classified as the wildcard; anything else passes through unchanged. -/
def specTokenExpansion : Token → List Token
  | Token.str s =>
    let pieces := jsSplit s '/'
    let pieces' := match pieces with
      | "" :: rest => rest
      | other => other
    pieces'.map Token.str
  | Token.param n pat =>
    if pat = "[^\\/]+?" then [Token.str "*"] else [Token.param n pat]

/-- The insertion key as claim C6 words it (§4.2): the maximal leading run of
Literal tokens of the expanded template, stopping at the first Wildcard (the
expanded `'*'` marker) or unsupported token. -/
def specLiteralRunKey (parsePath : String → List Token) (r : Route) : List String :=
  let expanded := (parsePath r.path).flatMap expandToken
  (expanded.takeWhile (fun t => t.isStr && decide (t.strVal ≠ "*"))).map Token.strVal

/-- The insertions fed to the trie by `buildTrie`, with effective keys. -/
def routeIns (parsePath : String → List Token) (routes : List Route) :
    List (List String × Route) :=
  routes.map (fun r => (effKey parsePath r, r))

/-- The trie built by folding `PrefixTree.add` over explicit insertions. -/
def buildIns {T : Type} (ins : List (List String × T)) : PrefixTree T :=
  ins.foldl (fun t kv => t.add kv.1 kv.2) (PrefixTree.mk [])


/-! ## Lemma layer -/

theorem lookupKey_setKey {α : Type} (l : List (String × α)) (k : String) (v : α) (s : String) :
    lookupKey (setKey l k v) s = if k = s then some v else lookupKey l s := by
  induction l with
  | nil => simp [setKey, lookupKey]
  | cons hd tl ih =>
    obtain ⟨k', w⟩ := hd
    by_cases hk : k' = k
    · subst hk
      by_cases hs : k' = s <;> simp [setKey, lookupKey, hs]
    · by_cases hs : k' = s
      · subst hs
        have hks : ¬(k = k') := fun h => hk h.symm
        simp [setKey, lookupKey, hk, hks]
      · simp [setKey, lookupKey, hk, hs, ih]

theorem buildIns_append {T : Type} (ins : List (List String × T)) (k : List String) (v : T) :
    buildIns (ins ++ [(k, v)]) = (buildIns ins).add k v := by
  simp [buildIns, List.foldl_append]

theorem insHead_append {T : Type} (ins : List (List String × T)) (kv : List String × T)
    (s : String) :
    insHead (ins ++ [kv]) s = (insHead ins s || decide (kv.1.head? = some s)) := by
  simp [insHead]

theorem valsOf_append {T : Type} (ins : List (List String × T)) (kv : List String × T)
    (s : String) :
    valsOf (ins ++ [kv]) s = valsOf ins s ++ (if kv.1 = [s] then [kv.2] else []) := by
  by_cases h : kv.1 = [s] <;> simp [valsOf, List.filter_append, h]

theorem subOf_append {T : Type} (ins : List (List String × T)) (kv : List String × T)
    (s : String) :
    subOf (ins ++ [kv]) s =
      subOf ins s ++
        (if kv.1.head? = some s ∧ 2 ≤ kv.1.length then [(kv.1.tail, kv.2)] else []) := by
  by_cases h1 : kv.1.head? = some s <;> by_cases h2 : 2 ≤ kv.1.length <;>
    simp [subOf, List.filter_append, h1, h2]

theorem insHead_false_valsOf {T : Type} {ins : List (List String × T)} {s : String}
    (h : insHead ins s = false) : valsOf ins s = [] := by
  simp only [insHead, List.any_eq_false, decide_eq_true_eq] at h
  simp only [valsOf, List.map_eq_nil_iff, List.filter_eq_nil_iff]
  intro kv hkv
  simp only [decide_eq_true_eq]
  intro hk
  exact h kv hkv (by rw [hk]; rfl)

theorem insHead_false_subOf {T : Type} {ins : List (List String × T)} {s : String}
    (h : insHead ins s = false) : subOf ins s = [] := by
  simp only [insHead, List.any_eq_false, decide_eq_true_eq] at h
  simp only [subOf, List.map_eq_nil_iff, List.filter_eq_nil_iff]
  intro kv hkv
  simp only [Bool.and_eq_true, decide_eq_true_eq, not_and]
  intro hk
  exact absurd hk (h kv hkv)

theorem prefixes_mk {T : Type} (l : List (String × PrefixTreeNode T)) :
    (PrefixTree.mk l).prefixes = l := rfl

theorem value_mk {T : Type} (v : Option (List T)) (t : Option (PrefixTree T)) :
    (PrefixTreeNode.mk v t).value = v := rfl

theorem tail_mk {T : Type} (v : Option (List T)) (t : Option (PrefixTree T)) :
    (PrefixTreeNode.mk v t).tail = t := rfl

theorem subOf_key_ne_nil {T : Type} (ins : List (List String × T)) (s : String) :
    ∀ kv ∈ subOf ins s, kv.1 ≠ [] := by
  intro kv hkv
  simp only [subOf, List.mem_map, List.mem_filter, Bool.and_eq_true, decide_eq_true_eq] at hkv
  obtain ⟨orig, ⟨_, _, hlen⟩, heq⟩ := hkv
  intro hnil
  rw [← heq] at hnil
  simp only at hnil
  have hlen2 := congrArg List.length hnil
  simp only [List.length_tail, List.length_nil] at hlen2
  omega

theorem insHead_snoc_eq {T : Type} (ins : List (List String × T)) (k0 : String)
    (ktail : List String) (v : T) : insHead (ins ++ [(k0 :: ktail, v)]) k0 = true := by
  simp [insHead]

theorem insHead_snoc_ne {T : Type} (ins : List (List String × T)) (k0 : String)
    (ktail : List String) (v : T) (s : String) (hs : ¬k0 = s) :
    insHead (ins ++ [(k0 :: ktail, v)]) s = insHead ins s := by
  simp [insHead, hs]

theorem valsOf_snoc_single_eq {T : Type} (ins : List (List String × T)) (k0 : String)
    (v : T) : valsOf (ins ++ [([k0], v)]) k0 = valsOf ins k0 ++ [v] := by
  simp [valsOf, List.filter_append]

theorem valsOf_snoc_single_ne {T : Type} (ins : List (List String × T)) (k0 : String)
    (v : T) (s : String) (hs : ¬k0 = s) : valsOf (ins ++ [([k0], v)]) s = valsOf ins s := by
  simp [valsOf, List.filter_append, hs]

theorem valsOf_snoc_deep {T : Type} (ins : List (List String × T)) (k0 k1 : String)
    (krest : List String) (v : T) (s : String) :
    valsOf (ins ++ [(k0 :: k1 :: krest, v)]) s = valsOf ins s := by
  simp [valsOf, List.filter_append]

theorem subOf_snoc_single {T : Type} (ins : List (List String × T)) (k0 : String) (v : T)
    (s : String) : subOf (ins ++ [([k0], v)]) s = subOf ins s := by
  simp [subOf, List.filter_append]

theorem subOf_snoc_deep_eq {T : Type} (ins : List (List String × T)) (k0 k1 : String)
    (krest : List String) (v : T) :
    subOf (ins ++ [(k0 :: k1 :: krest, v)]) k0 = subOf ins k0 ++ [(k1 :: krest, v)] := by
  simp [subOf, List.filter_append, show (2 : Nat) ≤ krest.length + 1 + 1 by omega]

theorem subOf_snoc_deep_ne {T : Type} (ins : List (List String × T)) (k0 k1 : String)
    (krest : List String) (v : T) (s : String) (hs : ¬k0 = s) :
    subOf (ins ++ [(k0 :: k1 :: krest, v)]) s = subOf ins s := by
  simp [subOf, List.filter_append, hs]

theorem buildIns_lookup {T : Type} (s : String) (ins : List (List String × T))
    (hne : ∀ kv ∈ ins, kv.1 ≠ []) :
    lookupKey (buildIns ins).prefixes s =
      if insHead ins s then
        some (PrefixTreeNode.mk
          (if (valsOf ins s).isEmpty then none else some (valsOf ins s))
          (if (subOf ins s).isEmpty then none else some (buildIns (subOf ins s))))
      else none := by
  induction ins using List.reverseRecOn with
  | nil => simp [buildIns, lookupKey, insHead, prefixes_mk]
  | append_singleton ins kv ih =>
    have hne' : ∀ x ∈ ins, x.1 ≠ [] := fun x hx => hne x (List.mem_append_left _ hx)
    have hkv : kv.1 ≠ [] := hne kv (List.mem_append_right _ (List.mem_singleton.mpr rfl))
    have ihs := ih hne'
    obtain ⟨key, v⟩ := kv
    rw [buildIns_append]
    cases hkey : key with
    | nil => exact absurd hkey hkv
    | cons k0 ktail =>
      cases ktail with
      | nil =>
        by_cases hs : k0 = s
        · subst hs
          rw [insHead_snoc_eq, valsOf_snoc_single_eq, subOf_snoc_single, if_pos rfl]
          simp only [PrefixTree.add, pushValue, prefixes_mk, lookupKey_setKey, if_pos rfl]
          rw [ihs]
          cases hA : insHead ins k0 with
          | false =>
            have hv := insHead_false_valsOf hA
            have hsub := insHead_false_subOf hA
            simp [hv, hsub, value_mk, tail_mk]
          | true =>
            cases hV : valsOf ins k0 with
            | nil => simp [hV, value_mk, tail_mk]
            | cons w ws => simp [hV, value_mk, tail_mk]
        · rw [insHead_snoc_ne _ _ _ _ _ hs, valsOf_snoc_single_ne _ _ _ _ hs,
            subOf_snoc_single]
          simp only [PrefixTree.add, pushValue, prefixes_mk, lookupKey_setKey, if_neg hs]
          exact ihs
      | cons k1 krest =>
        by_cases hs : k0 = s
        · subst hs
          rw [insHead_snoc_eq, valsOf_snoc_deep, subOf_snoc_deep_eq, if_pos rfl]
          simp only [PrefixTree.add, prefixes_mk, lookupKey_setKey, if_pos rfl]
          rw [ihs]
          cases hA : insHead ins k0 with
          | false =>
            have hv := insHead_false_valsOf hA
            have hsub := insHead_false_subOf hA
            simp [hv, hsub, value_mk, tail_mk, buildIns]
          | true =>
            have htail :
                ((if (subOf ins k0).isEmpty then none
                  else some (buildIns (subOf ins k0))).getD (PrefixTree.mk []))
                  = buildIns (subOf ins k0) := by
              cases hsub : subOf ins k0 <;> simp [buildIns]
            simp only [eq_self_iff_true, if_true, Option.getD_some, value_mk, tail_mk]
            rw [htail, ← buildIns_append (subOf ins k0) (k1 :: krest) v]
            simp
        · rw [insHead_snoc_ne _ _ _ _ _ hs, valsOf_snoc_deep, subOf_snoc_deep_ne _ _ _ _ _ _ hs]
          simp only [PrefixTree.add, prefixes_mk, lookupKey_setKey, if_neg hs]
          exact ihs

theorem insHead_false_filter {T : Type} {ins : List (List String × T)} {k : String}
    (h : insHead ins k = false) (q : List String) :
    ins.filter (fun kv => decide (kv.1 = k :: q)) = [] := by
  simp only [insHead, List.any_eq_false, decide_eq_true_eq] at h
  simp only [List.filter_eq_nil_iff, decide_eq_true_eq]
  intro kv hkv hk
  exact h kv hkv (by rw [hk]; rfl)

theorem subOf_nil_filter {T : Type} {ins : List (List String × T)} {k : String}
    (h : subOf ins k = []) (q0 : String) (qt : List String) :
    ins.filter (fun kv => decide (kv.1 = k :: q0 :: qt)) = [] := by
  simp only [subOf, List.map_eq_nil_iff, List.filter_eq_nil_iff, Bool.and_eq_true,
    decide_eq_true_eq, not_and] at h
  simp only [List.filter_eq_nil_iff, decide_eq_true_eq]
  intro kv hkv hk
  apply h kv hkv (by rw [hk]; rfl)
  rw [hk]
  simp only [List.length_cons]
  omega

theorem subOf_filter_eq {T : Type} (ins : List (List String × T)) (k q0 : String)
    (qrest : List String) :
    (subOf ins k).filter (fun kv => decide (kv.1 = q0 :: qrest)) =
      (ins.filter (fun kv => decide (kv.1 = k :: q0 :: qrest))).map
        (fun kv => (kv.1.tail, kv.2)) := by
  unfold subOf
  rw [List.filter_map, List.filter_filter]
  congr 1
  apply List.filter_congr
  intro kv _
  cases hkl : kv.1 with
  | nil => simp [hkl]
  | cons a as =>
    by_cases ha : a = k
    · subst ha
      by_cases has : as = q0 :: qrest
      · subst has
        simp [hkl, Function.comp, show (2 : Nat) ≤ qrest.length + 1 + 1 by omega]
      · simp [hkl, Function.comp, has]
    · simp [hkl, Function.comp, ha]

theorem valuesAt_buildIns {T : Type} (q : List String) :
    ∀ ins : List (List String × T), (∀ kv ∈ ins, kv.1 ≠ []) →
      valuesAt (buildIns ins) q = (ins.filter (fun kv => decide (kv.1 = q))).map Prod.snd := by
  induction q with
  | nil =>
    intro ins hne
    have : ins.filter (fun kv => decide (kv.1 = ([] : List String))) = [] := by
      simp only [List.filter_eq_nil_iff, decide_eq_true_eq]
      intro kv hkv
      exact hne kv hkv
    rw [this]
    rfl
  | cons k qrest ih =>
    intro ins hne
    cases qrest with
    | nil =>
      show valuesAt (buildIns ins) [k] = valsOf ins k
      simp only [valuesAt]
      rw [buildIns_lookup k ins hne]
      cases hI : insHead ins k with
      | false =>
        have hv := insHead_false_valsOf hI
        simp [hv]
      | true =>
        cases hV : valsOf ins k with
        | nil => simp [hV, value_mk]
        | cons w ws => simp [hV, value_mk]
    | cons q1 qtail =>
      simp only [valuesAt]
      rw [buildIns_lookup k ins hne]
      cases hI : insHead ins k with
      | false =>
        rw [insHead_false_filter hI]
        simp
      | true =>
        cases hsub : subOf ins k with
        | nil =>
          rw [subOf_nil_filter hsub]
          simp [hsub, tail_mk]
        | cons e es =>
          have hne2 : ∀ kv ∈ subOf ins k, kv.1 ≠ [] := subOf_key_ne_nil ins k
          have ihsub := ih (subOf ins k) hne2
          rw [subOf_filter_eq] at ihsub
          rw [hsub] at ihsub
          show valuesAt (buildIns (e :: es)) (q1 :: qtail) =
            (ins.filter (fun kv => decide (kv.1 = k :: q1 :: qtail))).map Prod.snd
          rw [ihsub, List.map_map]
          rfl

theorem collectPatterns_none {T : Type} (segs : List String) :
    collectPatterns (none : Option (PrefixTree T)) segs = [] := by
  cases segs <;> rfl

theorem specCollect_nil_ins {T : Type} (segs : List String) :
    specCollect ([] : List (List String × T)) segs = [] := by
  cases segs <;> rfl

theorem collectPatterns_cons_lit {T : Type} (tr : PrefixTree T) (s : String)
    (rest : List String) (n : PrefixTreeNode T) (h : lookupKey tr.prefixes s = some n) :
    collectPatterns (some tr) (s :: rest) = n.value.getD [] ++ collectPatterns n.tail rest := by
  simp only [collectPatterns, h]

theorem collectPatterns_cons_wild_some {T : Type} (tr : PrefixTree T) (s : String)
    (rest : List String) (n : PrefixTreeNode T) (h1 : lookupKey tr.prefixes s = none)
    (h2 : lookupKey tr.prefixes "*" = some n) :
    collectPatterns (some tr) (s :: rest) = n.value.getD [] ++ collectPatterns n.tail rest := by
  simp only [collectPatterns, h1, h2]

theorem collectPatterns_cons_none {T : Type} (tr : PrefixTree T) (s : String)
    (rest : List String) (h1 : lookupKey tr.prefixes s = none)
    (h2 : lookupKey tr.prefixes "*" = none) :
    collectPatterns (some tr) (s :: rest) = [] := by
  simp only [collectPatterns, h1, h2]
  exact List.nil_append _ ▸ collectPatterns_none rest

theorem collect_buildIns {T : Type} (segs : List String) :
    ∀ ins : List (List String × T), (∀ kv ∈ ins, kv.1 ≠ []) →
      collectPatterns (some (buildIns ins)) segs = specCollect ins segs := by
  induction segs with
  | nil => intro ins _; rfl
  | cons s rest ih =>
    intro ins hne
    have hvals : ∀ w : String,
        ((if (valsOf ins w).isEmpty = true then none
          else some (valsOf ins w)) : Option (List T)).getD [] = valsOf ins w := by
      intro w
      cases valsOf ins w <;> simp
    have htails : ∀ w : String,
        collectPatterns (if (subOf ins w).isEmpty = true then none
          else some (buildIns (subOf ins w))) rest = specCollect (subOf ins w) rest := by
      intro w
      cases hsub : subOf ins w with
      | nil =>
        show collectPatterns none rest = specCollect ([] : List (List String × T)) rest
        rw [specCollect_nil_ins]
        exact collectPatterns_none rest
      | cons e es =>
        show collectPatterns (some (buildIns (e :: es))) rest = specCollect (e :: es) rest
        have h := ih (subOf ins w) (subOf_key_ne_nil ins w)
        rw [hsub] at h
        exact h
    cases hI : insHead ins s with
    | true =>
      have hs : lookupKey (buildIns ins).prefixes s =
          some (PrefixTreeNode.mk
            (if (valsOf ins s).isEmpty then none else some (valsOf ins s))
            (if (subOf ins s).isEmpty then none else some (buildIns (subOf ins s)))) := by
        rw [buildIns_lookup s ins hne]
        simp [hI]
      rw [collectPatterns_cons_lit _ _ rest _ hs]
      simp only [value_mk, tail_mk, hvals, htails]
      simp only [specCollect, hI, if_true]
    | false =>
      have hs0 : lookupKey (buildIns ins).prefixes s = none := by
        rw [buildIns_lookup s ins hne]
        simp [hI]
      cases hW : insHead ins "*" with
      | true =>
        have hw : lookupKey (buildIns ins).prefixes "*" =
            some (PrefixTreeNode.mk
              (if (valsOf ins "*").isEmpty then none else some (valsOf ins "*"))
              (if (subOf ins "*").isEmpty then none
                else some (buildIns (subOf ins "*")))) := by
          rw [buildIns_lookup "*" ins hne]
          simp [hW]
        rw [collectPatterns_cons_wild_some _ _ rest _ hs0 hw]
        simp only [value_mk, tail_mk, hvals, htails]
        simp only [specCollect, hI, hW, if_true]
        simp
      | false =>
        have hw0 : lookupKey (buildIns ins).prefixes "*" = none := by
          rw [buildIns_lookup "*" ins hne]
          simp [hW]
        rw [collectPatterns_cons_none _ _ rest hs0 hw0]
        simp [specCollect, hI, hW]

theorem add_nil_eq_undefined {T : Type} (t : PrefixTree T) (v : T) :
    t.add [] v = t.add ["undefined"] v := rfl

theorem add_routeKey_effKey (parsePath : String → List Token) (t : PrefixTree Route)
    (r : Route) : t.add (routeKey parsePath r) r = t.add (effKey parsePath r) r := by
  cases h : routeKey parsePath r with
  | nil =>
    have he : effKey parsePath r = ["undefined"] := by simp [effKey, h]
    rw [he]
    rfl
  | cons a as =>
    have he : effKey parsePath r = a :: as := by simp [effKey, h]
    rw [he]

theorem effKey_ne_nil (parsePath : String → List Token) (r : Route) :
    effKey parsePath r ≠ [] := by
  cases h : routeKey parsePath r <;> simp [effKey, h]

theorem routeIns_ne_nil (parsePath : String → List Token) (routes : List Route) :
    ∀ kv ∈ routeIns parsePath routes, kv.1 ≠ [] := by
  intro kv hkv
  simp only [routeIns, List.mem_map] at hkv
  obtain ⟨r, _, rfl⟩ := hkv
  exact effKey_ne_nil parsePath r

theorem theTrie_eq_buildIns (parsePath : String → List Token) (routes : List Route) :
    theTrie parsePath routes = buildIns (routeIns parsePath routes) := by
  suffices h : ∀ t : PrefixTree Route,
      routes.foldl (fun t r => t.add (routeKey parsePath r) r) t =
        (routeIns parsePath routes).foldl (fun t kv => t.add kv.1 kv.2) t from h _
  induction routes with
  | nil => intro t; rfl
  | cons r rs ih =>
    intro t
    simp only [List.foldl_cons, routeIns, List.map_cons]
    rw [add_routeKey_effKey]
    exact ih _

theorem buildTrie_collect (parsePath : String → List Token) (routes : List Route)
    (segs : List String) :
    collectPatterns (buildTrie parsePath routes) segs =
      specCollect (routeIns parsePath routes) segs := by
  show collectPatterns (some (theTrie parsePath routes)) segs = _
  rw [theTrie_eq_buildIns]
  exact collect_buildIns segs _ (routeIns_ne_nil _ _)

theorem valuesAt_theTrie (parsePath : String → List Token) (routes : List Route)
    (q : List String) :
    valuesAt (theTrie parsePath routes) q =
      routes.filter (fun r => decide (effKey parsePath r = q)) := by
  rw [theTrie_eq_buildIns,
    valuesAt_buildIns q (routeIns parsePath routes) (routeIns_ne_nil _ _)]
  · unfold routeIns
    rw [List.filter_map, List.map_map]
    rw [show (Prod.snd ∘ fun r : Route => (effKey parsePath r, r)) = fun r => r from rfl]
    rw [List.map_id']
    rfl

theorem execLoop_eq_none_iff {T M : Type} (f : T → Option M) (l : List T) :
    execLoop f l = none ↔ ∀ x ∈ l, f x = none := by
  induction l with
  | nil => simp [execLoop]
  | cons a l ih =>
    simp only [execLoop]
    cases h : f a with
    | some m => simp [h]
    | none => simp [h, ih]

theorem execLoop_eq_some_iff {T M : Type} (f : T → Option M) (l : List T) (m : M) :
    execLoop f l = some m ↔
      ∃ l₁ x l₂, l = l₁ ++ x :: l₂ ∧ (∀ y ∈ l₁, f y = none) ∧ f x = some m := by
  induction l with
  | nil =>
    constructor
    · intro h; exact absurd h (by simp [execLoop])
    · rintro ⟨l₁, x, l₂, h, -, -⟩
      exact absurd h.symm (by simp)
  | cons a l ih =>
    cases h : f a with
    | some m' =>
      simp only [execLoop, h]
      constructor
      · intro hm
        exact ⟨[], a, l, rfl, by simp, by rw [h, hm]⟩
      · rintro ⟨l₁, x, l₂, heq, hnone, hx⟩
        cases l₁ with
        | nil =>
          simp only [List.nil_append, List.cons.injEq] at heq
          obtain ⟨rfl, rfl⟩ := heq
          rw [h] at hx
          exact hx
        | cons b l₁' =>
          simp only [List.cons_append, List.cons.injEq] at heq
          obtain ⟨rfl, heq'⟩ := heq
          have hb := hnone a (by simp)
          rw [h] at hb
          cases hb
    | none =>
      simp only [execLoop, h]
      rw [ih]
      constructor
      · rintro ⟨l₁, x, l₂, rfl, hnone, hx⟩
        refine ⟨a :: l₁, x, l₂, rfl, ?_, hx⟩
        intro y hy
        rcases List.mem_cons.mp hy with rfl | hy'
        · exact h
        · exact hnone y hy'
      · rintro ⟨l₁, x, l₂, heq, hnone, hx⟩
        cases l₁ with
        | nil =>
          simp only [List.nil_append, List.cons.injEq] at heq
          obtain ⟨rfl, rfl⟩ := heq
          rw [h] at hx
          cases hx
        | cons b l₁' =>
          simp only [List.cons_append, List.cons.injEq] at heq
          obtain ⟨rfl, heq'⟩ := heq
          exact ⟨l₁', x, l₂, heq', fun y hy => hnone y (by simp [hy]), hx⟩

/-! ## Claim theorems -/

/-- Claim C1: for every registered route set and request path, `matchRoute` over
`buildTrie`'s trie returns exactly the brute-force result over the routes
reachable via the set's literal/wildcard segment structure, evaluated with the
external matcher under the precedence order in which deeper keys win and, on a
depth tie, the later-registered route wins (`listMatchSpec`). -/
theorem c1_matchRoute_refines_listMatchSpec {Q M : Type}
    (exec : Route → String → Q → String → Option M) (parsePath : String → List Token)
    (routes : List Route) (pathname : String) (queryParams : Q) (basePath : String) :
    matchRoute exec (buildTrie parsePath routes) pathname queryParams basePath =
      listMatchSpec exec parsePath routes pathname queryParams basePath := by
  show execLoop _ (collectPatterns (buildTrie parsePath routes) (pathSegments pathname)).reverse
    = listMatchSpec exec parsePath routes pathname queryParams basePath
  rw [buildTrie_collect]
  rfl

/-- Witness for C1 at a concrete route set and path. -/
theorem c1_witness :
    matchRoute execRouteMatchingModel
        (buildTrie parsePathModel [Route.mk "/jira/:x" true, Route.mk "/jira/software" true])
        "/jira/software" [] "" =
      listMatchSpec execRouteMatchingModel parsePathModel
        [Route.mk "/jira/:x" true, Route.mk "/jira/software" true] "/jira/software" [] "" :=
  c1_matchRoute_refines_listMatchSpec execRouteMatchingModel parsePathModel
    [Route.mk "/jira/:x" true, Route.mk "/jira/software" true] "/jira/software" [] ""

/-- Claim C2: during the descent, the literal edge for the current segment is
always used when present and the wildcard edge only as a fallback; with routes
`/a/:x` and `/a/b`, request `/a/b` resolves to `/a/b` and `/a/c` to `/a/:x`. -/
theorem c2_literal_edge_preferred :
    (∀ (T : Type) (tr : PrefixTree T) (s : String) (rest : List String)
        (n : PrefixTreeNode T), lookupKey tr.prefixes s = some n →
        collectPatterns (some tr) (s :: rest) =
          n.value.getD [] ++ collectPatterns n.tail rest) ∧
    (∀ (T : Type) (tr : PrefixTree T) (s : String) (rest : List String)
        (n : PrefixTreeNode T), lookupKey tr.prefixes s = none →
        lookupKey tr.prefixes "*" = some n →
        collectPatterns (some tr) (s :: rest) =
          n.value.getD [] ++ collectPatterns n.tail rest) ∧
    matchRoute execRouteMatchingModel
        (buildTrie parsePathModel [Route.mk "/a/:x" true, Route.mk "/a/b" true])
        "/a/b" [] "" =
      some (MatchResult.mk (Route.mk "/a/b" true) (RouteMatch.mk [])) ∧
    matchRoute execRouteMatchingModel
        (buildTrie parsePathModel [Route.mk "/a/:x" true, Route.mk "/a/b" true])
        "/a/c" [] "" =
      some (MatchResult.mk (Route.mk "/a/:x" true) (RouteMatch.mk [("x", "c")])) :=
  ⟨fun _ tr s rest n h => collectPatterns_cons_lit tr s rest n h,
   fun _ tr s rest n h1 h2 => collectPatterns_cons_wild_some tr s rest n h1 h2,
   by decide, by decide⟩

/-- Witness for C2's node-level statement at a concrete trie. -/
theorem c2_witness :
    collectPatterns (some (PrefixTree.mk [("a", PrefixTreeNode.mk (some [1]) none),
        ("*", PrefixTreeNode.mk (some [2]) none)])) ["a"] = [1] := by
  rw [c2_literal_edge_preferred.1 Nat
    (PrefixTree.mk [("a", PrefixTreeNode.mk (some [1]) none),
      ("*", PrefixTreeNode.mk (some [2]) none)])
    "a" [] (PrefixTreeNode.mk (some [1]) none) (by simp [lookupKey, prefixes_mk])]
  rfl

/-- Claim C3: `matchRoute` evaluates the collected candidates in reverse of
collection order, returning the first success with its extraction result, and
returns none exactly when every candidate fails. -/
theorem c3_reverse_evaluation {T Q M : Type} (exec : T → String → Q → String → Option M)
    (trie : Option (PrefixTree T)) (pathname : String) (queryParams : Q)
    (basePath : String) :
    (matchRoute exec trie pathname queryParams basePath = none ↔
      ∀ r ∈ (collectPatterns trie (pathSegments pathname)).reverse,
        exec r pathname queryParams basePath = none) ∧
    ∀ m : M, matchRoute exec trie pathname queryParams basePath = some m ↔
      ∃ l₁ x l₂,
        (collectPatterns trie (pathSegments pathname)).reverse = l₁ ++ x :: l₂ ∧
        (∀ y ∈ l₁, exec y pathname queryParams basePath = none) ∧
        exec x pathname queryParams basePath = some m := by
  constructor
  · exact execLoop_eq_none_iff _ _
  · intro m
    exact execLoop_eq_some_iff _ _ m

/-- Witness for C3 at a concrete trie and path. -/
theorem c3_witness :
    matchRoute execRouteMatchingModel (buildTrie parsePathModel [Route.mk "/a" true])
      "/a" [] "" = some (MatchResult.mk (Route.mk "/a" true) (RouteMatch.mk [])) := by
  refine ((c3_reverse_evaluation execRouteMatchingModel
    (buildTrie parsePathModel [Route.mk "/a" true]) "/a" [] "").2 _).mpr ?_
  exact ⟨[], Route.mk "/a" true, [], by decide, by simp, by decide⟩

/-- Counterexample for C4: `buildTrie` applied to the empty route set does not
return null — it returns the empty trie. -/
theorem c4_counterexample : buildTrie parsePathModel [] ≠ none :=
  fun h => Option.noConfusion h

/-- Claim C4 (amended): `buildTrie` never returns null; on the empty route set
it returns the trie with no entries, on which `matchRoute` returns no-match for
every path, query parameters and base path without error. -/
theorem c4_buildTrie_never_null :
    (∀ (parsePath : String → List Token) (routes : List Route),
      (buildTrie parsePath routes).isSome = true) ∧
    buildTrie parsePathModel [] = some (PrefixTree.mk []) ∧
    ∀ (Q M : Type) (exec : Route → String → Q → String → Option M) (p : String)
      (qp : Q) (bp : String),
      matchRoute exec (buildTrie parsePathModel []) p qp bp = none := by
  refine ⟨fun _ _ => rfl, rfl, ?_⟩
  intro Q M exec p qp bp
  have hcol : collectPatterns (buildTrie parsePathModel []) (pathSegments p) = [] := by
    show collectPatterns (some (PrefixTree.mk [])) (pathSegments p) = []
    cases pathSegments p with
    | nil => rfl
    | cons s rest =>
      show collectPatterns none rest = []
      exact collectPatterns_none rest
  show execLoop _ (collectPatterns (buildTrie parsePathModel []) (pathSegments p)).reverse
    = none
  rw [hcol]
  rfl

/-- Counterexample for C5: `matchRoute` called with a null trie at a concrete
input silently returns no-match instead of failing loudly. -/
theorem c5_counterexample :
    matchRoute execRouteMatchingModel (none : Option (PrefixTree Route)) "/a/b" [] ""
      = none := rfl

/-- Claim C5 (amended): for every pathname, query parameters and base path,
calling `matchRoute` with a null trie silently returns no-match — the
null-guarded loop never faults and no assertion exists. -/
theorem c5_null_trie_silent {T Q M : Type} (exec : T → String → Q → String → Option M)
    (pathname : String) (qp : Q) (bp : String) :
    matchRoute exec (none : Option (PrefixTree T)) pathname qp bp = none := by
  show execLoop _ (collectPatterns (none : Option (PrefixTree T)) (pathSegments pathname)).reverse
    = none
  rw [collectPatterns_none]
  rfl

/-- Counterexample for C6: for route `/a/:x/b` the insertion key is
`["a", "*", "b"]` — the wildcard does not stop the literal-prefix extraction,
because the expander turns the default-pattern parameter into the string
`'*'`, which passes the `typeof token === 'string'` test — while the claim's
leading-literal-run key is `["a"]`; the route is stored at depth 3, not at
depth 1. -/
theorem c6_counterexample :
    routeKey parsePathModel (Route.mk "/a/:x/b" true) = ["a", "*", "b"] ∧
    specLiteralRunKey parsePathModel (Route.mk "/a/:x/b" true) = ["a"] ∧
    valuesAt (theTrie parsePathModel [Route.mk "/a/:x/b" true]) ["a", "*", "b"]
      = [Route.mk "/a/:x/b" true] ∧
    valuesAt (theTrie parsePathModel [Route.mk "/a/:x/b" true]) ["a"] = [] := by
  decide

/-- Claim C6 (amended): the insertion key is the maximal leading run of string
tokens of the expanded template — where a default-pattern parameter expands to
the wildcard string `'*'`, so extraction stops only at an unsupported
(non-string) token — and every route is stored exactly once, at the node
addressed by that key (an empty key is stored under `"undefined"`), with
registration order preserved within a node. -/
theorem c6_insertion_key (parsePath : String → List Token) (routes : List Route)
    (q : List String) :
    valuesAt (theTrie parsePath routes) q =
      routes.filter (fun r => decide (effKey parsePath r = q)) :=
  valuesAt_theTrie parsePath routes q

/-- Counterexample for C7: on the literal token `"a/b"` — one that does not
start with the separator — the expander drops the non-empty first piece `"a"`,
not the (absent) leading empty piece the claim describes. -/
theorem c7_counterexample :
    expandToken (Token.str "a/b") = [Token.str "b"] ∧
    specTokenExpansion (Token.str "a/b") = [Token.str "a", Token.str "b"] ∧
    expandToken (Token.str "a/b") ≠ specTokenExpansion (Token.str "a/b") := by
  decide

/-- Claim C7 (amended): the expander is total and drops the first split piece
of a literal unconditionally; this coincides with the spec-described behaviour
(discard only the leading empty piece) exactly when the literal is empty or
starts with the separator, and parameter tokens behave as the claim states:
default-pattern parameters become the wildcard, all others pass through. -/
theorem c7_expand_token :
    (∀ s : String, s = "" ∨ s.data.head? = some '/' →
      expandToken (Token.str s) = specTokenExpansion (Token.str s)) ∧
    ∀ n pat : String,
      expandToken (Token.param n pat) = specTokenExpansion (Token.param n pat) := by
  constructor
  · intro s hs
    rcases hs with rfl | hhead
    · rfl
    · obtain ⟨cs, hcs⟩ : ∃ cs, s.data = '/' :: cs := by
        cases hd : s.data with
        | nil => rw [hd] at hhead; cases hhead
        | cons c cs =>
          rw [hd] at hhead
          simp only [List.head?_cons, Option.some.injEq] at hhead
          exact ⟨cs, by rw [hhead]⟩
      have hsplit : jsSplit s '/' = String.mk [] :: splitCharsAux '/' [] cs := by
        unfold jsSplit
        rw [hcs]
        rfl
      simp only [expandToken, specTokenExpansion, hsplit]
      rfl
  · intro n pat
    rfl

/-- Witness for C7's amended agreement on a separator-led literal. -/
theorem c7_witness :
    expandToken (Token.str "/a/b") = specTokenExpansion (Token.str "/a/b") :=
  c7_expand_token.1 "/a/b" (Or.inr rfl)

/-- Counterexample for C8: route `""` has an empty literal-prefix key and the
external matcher accepts it on the empty request path `/`, yet `matchRoute`
returns no-match there — on an empty segment split it collects nothing at
all, so no route whatsoever can match. -/
theorem c8_counterexample :
    routeKey parsePathModel (Route.mk "" true) = [] ∧
    execRouteMatchingModel (Route.mk "" true) "/" [] ""
      = some (MatchResult.mk (Route.mk "" true) (RouteMatch.mk [])) ∧
    matchRoute execRouteMatchingModel (buildTrie parsePathModel [Route.mk "" true])
      "/" [] "" = none := by
  decide

/-- Claim C8 (amended): for a request path whose segment split is empty,
`matchRoute` collects no candidates and returns no-match, whatever the trie
and the registered routes. -/
theorem c8_empty_path_no_match {T Q M : Type} (exec : T → String → Q → String → Option M)
    (trie : Option (PrefixTree T)) (pathname : String) (qp : Q) (bp : String)
    (h : pathSegments pathname = []) :
    matchRoute exec trie pathname qp bp = none := by
  show execLoop _ (collectPatterns trie (pathSegments pathname)).reverse = none
  rw [h]
  cases trie <;> rfl

/-- Witness for C8's amended statement on the root path against a non-empty
trie. -/
theorem c8_witness :
    matchRoute execRouteMatchingModel (buildTrie parsePathModel [Route.mk "/a" true])
      "//" [] "" = none :=
  c8_empty_path_no_match execRouteMatchingModel
    (buildTrie parsePathModel [Route.mk "/a" true]) "//" [] "" (by decide)

/-- Counterexample for C9: route `/:x(\d+)` has an empty literal-prefix key;
it is stored under the literal property key `"undefined"` (the JS coercion of
`path[0]` being `undefined`), not under its first raw segment token, and a
request its template matches (`/5`) cannot reach it. -/
theorem c9_counterexample :
    routeKey parsePathModel (Route.mk "/:x(\\d+)" true) = [] ∧
    valuesAt (theTrie parsePathModel [Route.mk "/:x(\\d+)" true]) ["undefined"]
      = [Route.mk "/:x(\\d+)" true] ∧
    valuesAt (theTrie parsePathModel [Route.mk "/:x(\\d+)" true]) ["*"] = [] ∧
    execRouteMatchingModel (Route.mk "/:x(\\d+)" true) "/5" [] ""
      = some (MatchResult.mk (Route.mk "/:x(\\d+)" true) (RouteMatch.mk [("x", "5")])) ∧
    matchRoute execRouteMatchingModel
      (buildTrie parsePathModel [Route.mk "/:x(\\d+)" true]) "/5" [] "" = none := by
  decide

/-- Claim C9 (amended): inserting with an empty key is identical to inserting
with the key `["undefined"]` (JS coerces the `undefined` index to that property
name), so a route whose literal-prefix key is empty sits at depth 1 under the
literal segment `"undefined"`, together with any route whose key is literally
`["undefined"]` — not under its first raw segment token. -/
theorem c9_empty_key_undefined :
    (∀ (T : Type) (t : PrefixTree T) (v : T), t.add [] v = t.add ["undefined"] v) ∧
    ∀ (parsePath : String → List Token) (routes : List Route),
      valuesAt (theTrie parsePath routes) ["undefined"] =
        routes.filter (fun r => decide (routeKey parsePath r = [] ∨
          routeKey parsePath r = ["undefined"])) := by
  constructor
  · intro T t v
    rfl
  · intro parsePath routes
    rw [valuesAt_theTrie]
    apply List.filter_congr
    intro r _
    cases h : routeKey parsePath r with
    | nil => simp [effKey, h]
    | cons a as => simp [effKey, h]

/-- Claim C10: the descent never backtracks: whenever the current node has a
literal edge for the current segment, the collected patterns are computed from
that edge alone — any two tries agreeing on that edge collect the same
patterns, whatever their wildcard subtrees hold — and concretely, with routes
`/a/:x/c` and `/a/b`, request `/a/b/c` yields no match even though the external
matcher accepts `/a/:x/c` on that very path. -/
theorem c10_no_backtracking :
    (∀ (T : Type) (tr tr' : PrefixTree T) (s : String) (rest : List String)
        (n : PrefixTreeNode T),
        lookupKey tr.prefixes s = some n → lookupKey tr'.prefixes s = some n →
        collectPatterns (some tr) (s :: rest) = collectPatterns (some tr') (s :: rest)) ∧
    matchRoute execRouteMatchingModel
        (buildTrie parsePathModel [Route.mk "/a/:x/c" true, Route.mk "/a/b" true])
        "/a/b/c" [] "" = none ∧
    execRouteMatchingModel (Route.mk "/a/:x/c" true) "/a/b/c" [] ""
      = some (MatchResult.mk (Route.mk "/a/:x/c" true) (RouteMatch.mk [("x", "b")])) := by
  refine ⟨?_, by decide, by decide⟩
  intro T tr tr' s rest n h h'
  rw [collectPatterns_cons_lit tr s rest n h, collectPatterns_cons_lit tr' s rest n h']

/-- Witness for C10's frame statement: two tries sharing the literal edge but
with different wildcard entries collect the same patterns. -/
theorem c10_witness :
    collectPatterns (some (PrefixTree.mk [("a", PrefixTreeNode.mk (some [1]) none),
        ("*", PrefixTreeNode.mk (some [2]) none)])) ["a"] =
      collectPatterns (some (PrefixTree.mk [("a", PrefixTreeNode.mk (some [1]) none)]))
        ["a"] :=
  c10_no_backtracking.1 Nat
    (PrefixTree.mk [("a", PrefixTreeNode.mk (some [1]) none),
      ("*", PrefixTreeNode.mk (some [2]) none)])
    (PrefixTree.mk [("a", PrefixTreeNode.mk (some [1]) none)])
    "a" [] (PrefixTreeNode.mk (some [1]) none)
    (by simp [lookupKey, prefixes_mk]) (by simp [lookupKey, prefixes_mk])
